import Mathlib

/-!
Shallow embedding of the retrieval core of the Document-Research-Aichatbot
repository (src/app/models/document.py, src/app/services/document_processor.py,
src/app/services/vector_store.py, src/app/services/theme_extractor.py,
src/app.py), together with theorems checking the specification's claims
against it.  Python strings are modelled as lists of characters, Python
floats as rationals, Python dicts with string keys as association lists with
insert-or-replace update, and exceptions as Option/none results.
-/

namespace DocChat

/-- A Python string, modelled as its list of characters. -/
abbrev Str := List Char

/-- Whitespace test used by the Python methods str.strip and str.split. -/
def pyIsSpace (c : Char) : Bool := c.isWhitespace

/-- Truthiness of s.strip(): the string holds at least one non-space character.
Models the pattern "if text.strip():" used throughout document_processor.py. -/
def hasText (s : Str) : Bool := s.any (fun c => !(pyIsSpace c))

/-- Python s.strip(): drop whitespace from both ends. -/
def pyStrip (s : Str) : Str :=
  ((s.dropWhile pyIsSpace).reverse.dropWhile pyIsSpace).reverse

/-- Python s.replace with a newline replaced by a space, as in the answer
snippet construction of src/app.py line 212. -/
def replaceNl (s : Str) : Str := s.map (fun c => if c = '\n' then ' ' else c)

/-- Number of maximal non-whitespace runs: the length of Python s.split(),
used for the word count in document_processor.py line 107. -/
def countWords (s : Str) : Nat :=
  (s.foldl
    (fun (acc : Nat × Bool) c =>
      if pyIsSpace c then (acc.1, false)
      else if acc.2 then acc else (acc.1 + 1, true))
    (0, false)).1

/-- Python s.lower(), per character. -/
def pyLower (s : Str) : Str := s.map Char.toLower

/-- Python substring containment "p in s". -/
def strContains (s p : Str) : Bool :=
  (List.range (s.length + 1)).any (fun i => decide ((s.drop i).take p.length = p))

/-- Python sep.join(parts). -/
def joinSep (sep : Str) : List Str → Str
  | [] => []
  | [s] => s
  | s :: rest => s ++ sep ++ joinSep sep rest

/-- Decimal digits of n, least significant first, with fuel for structural
recursion; empty for n = 0. -/
def natToStrCore : Nat → Nat → Str
  | _, 0 => []
  | n, fuel + 1 =>
    if n = 0 then [] else Nat.digitChar (n % 10) :: natToStrCore (n / 10) fuel

/-- Python str(n) for a natural number n. -/
def natToStr (n : Nat) : Str :=
  if n = 0 then ['0'] else (natToStrCore n n).reverse

/-- Numeric value of a decimal digit character. -/
def charToDigit (c : Char) : Nat := c.toNat - 48

/-- Python int(s) on a string of decimal digits. -/
def strToNat (s : Str) : Nat :=
  s.foldl (fun acc c => acc * 10 + charToDigit c) 0

/-- Lookup in a Python dict with string keys, modelled as an association
list: the value of the first pair carrying the key. -/
def dictGet (m : List (String × Str)) (k : String) : Option Str :=
  (m.find? (fun kv => kv.1 = k)).map (fun kv => kv.2)

/-- Python dict insert-or-replace: m[k] = v keeps the position of an existing
key and appends a fresh one. -/
def dictSet (m : List (String × Str)) (k : String) (v : Str) :
    List (String × Str) :=
  if (m.find? (fun kv => kv.1 = k)).isSome then
    m.map (fun kv => if kv.1 = k then (k, v) else kv)
  else
    m ++ [(k, v)]

/-! ## Data model (src/app/models/document.py) -/

/-- The DocumentType enumeration of document.py lines 6-11. -/
inductive DocumentType where
  | pdf
  | image
  | text
  | docx
  | pptx
deriving DecidableEq, Repr

/-- The .value string of a DocumentType member. -/
def DocumentType.value : DocumentType → String
  | .pdf => "pdf"
  | .image => "image"
  | .text => "text"
  | .docx => "docx"
  | .pptx => "pptx"

/-- DocumentMetadata of document.py lines 13-23; the upload date is kept as
its isoformat string, fields not touched by any claim are omitted. -/
structure DocumentMetadata where
  doc_id : String
  title : String
  doc_type : DocumentType
  upload_date : Str := []
  page_count : Nat := 0
  word_count : Nat := 0
  custom_metadata : List (String × Str) := []
deriving DecidableEq, Repr

/-- DocumentChunk of document.py lines 25-32 (the optional embedding vector,
filled only by the index, is omitted). -/
structure DocumentChunk where
  chunk_id : String
  doc_id : String
  content : Str
  page_number : Nat
  chunk_index : Nat
  metadata : List (String × Str) := []
deriving DecidableEq, Repr

/-- Document of document.py lines 34-45. -/
structure Document where
  metadata : DocumentMetadata
  chunks : List DocumentChunk := []
  raw_text : Option Str := none
deriving DecidableEq, Repr

/-- Sort key used by Document.get_full_text: (page_number, chunk_index). -/
def chunkKey (c : DocumentChunk) : Nat × Nat := (c.page_number, c.chunk_index)

/-- The lexicographic comparison on chunk keys handed to the (stable) sort of
get_full_text, document.py line 45. -/
def chunkLeP (a b : DocumentChunk) : Prop :=
  a.page_number < b.page_number ∨
    (a.page_number = b.page_number ∧ a.chunk_index ≤ b.chunk_index)

instance : DecidableRel chunkLeP := by
  intro a b
  unfold chunkLeP
  infer_instance

instance : IsTotal DocumentChunk chunkLeP := by
  constructor
  intro a b
  unfold chunkLeP
  omega

instance : IsTrans DocumentChunk chunkLeP := by
  constructor
  intro a b c
  unfold chunkLeP
  omega

/-- Python sorted(chunks, key) is a stable sort; a stable sort by a total
decidable preorder is extensionally unique, and List.insertionSort is such a
stable sort, so it models sorted faithfully. -/
def sortChunks (cs : List DocumentChunk) : List DocumentChunk :=
  List.insertionSort chunkLeP cs

/-- Sorting the chunks by (page_number, chunk_index) and joining their
contents with a blank line, document.py line 45. -/
def sortedJoinedText (cs : List DocumentChunk) : Str :=
  joinSep ['\n', '\n'] ((sortChunks cs).map (fun c => c.content))

/-- Document.get_full_text, document.py lines 42-45: the raw_text field when
it is truthy (set and non-empty), otherwise the sorted-joined chunk view. -/
def getFullText (d : Document) : Str :=
  match d.raw_text with
  | some t => if t ≠ [] then t else sortedJoinedText d.chunks
  | none => sortedJoinedText d.chunks

/-! ## Chunk extraction and document assembly
(src/app/services/document_processor.py) -/

/-- The keys of DocumentProcessor.supported_mime_types,
document_processor.py lines 39-47. -/
def supportedMimeTypes : List String :=
  ["application/pdf",
   "application/vnd.openxmlformats-officedocument.wordprocessingml.document",
   "application/vnd.openxmlformats-officedocument.presentationml.presentation",
   "text/plain",
   "image/jpeg",
   "image/png",
   "image/tiff"]

/-- The expression DocumentType(ext) if ext in values else DocumentType.TEXT
of document_processor.py line 90; the extension is None when the file has no
suffix. -/
def extToDocType : Option String → DocumentType
  | some "pdf" => .pdf
  | some "image" => .image
  | some "text" => .text
  | some "docx" => .docx
  | some "pptx" => .pptx
  | _ => .text

/-- One chunk of the per-document assembly loop, document_processor.py lines
95-104: position i of enumerate gives the chunk id suffix and chunk_index,
the extracted pair gives page number and content. -/
def mkChunk (doc_id : String) (fname : Str) (i : Nat) (seg : Nat × Str) :
    DocumentChunk :=
  { chunk_id := doc_id ++ "_chunk_" ++ String.mk (natToStr i)
    doc_id := doc_id
    content := seg.2
    page_number := seg.1
    chunk_index := i
    metadata := [("source", fname), ("page", natToStr (seg.1 + 1))] }

/-- Document assembly of document_processor.py lines 86-107: metadata from
the filename stem and extension, chunks from the enumerate loop, then
page_count = max(page numbers, default 0) + 1 and word_count = the summed
split lengths. -/
def assembleDocument (stem : String) (fname : Str) (ext : Option String)
    (segs : List (Nat × Str)) : Document :=
  let chunks := segs.enum.map (fun p => mkChunk stem fname p.1 p.2)
  { metadata :=
      { doc_id := stem
        title := stem
        doc_type := extToDocType ext
        page_count := (chunks.map (fun c => c.page_number)).foldr max 0 + 1
        word_count := (chunks.map (fun c => countWords c.content)).sum }
    chunks := chunks }

/-- DocumentProcessor.process_document, document_processor.py lines 63-113.
The file system and the format-specific extractor are abstracted into
parameters: fileExists tells whether the path exists, mimeType is the
detected MIME type (none when detection itself failed, in which case the code
raises and the outer handler returns None), and extract is the chunk list the
matching processor would produce for this file.  Every raised error is caught
by the surrounding handler and becomes the None (here: none) result. -/
def processDocument (fileExists : Bool) (mimeType : Option String)
    (ext : Option String) (stem : String) (fname : Str)
    (extract : List (Nat × Str)) : Option Document :=
  if fileExists = false then none
  else
    match mimeType with
    | none => none
    | some mt =>
      if supportedMimeTypes.contains mt = false then none
      else if extract = [] then none
      else some (assembleDocument stem fname ext extract)

/-- The per-page collection loops of _process_pdf, document_processor.py
lines 124-127 and 137-140: enumerate the pages and keep the (index, text)
pairs whose text has non-whitespace content. -/
def pageChunks (pages : List Str) : List (Nat × Str) :=
  pages.enum.filter (fun p => hasText p.2)

/-- Chunks one extraction phase of _process_pdf yields: none models a raised
error, which the code catches, leaving that phase with no chunks. -/
def extractPhase (res : Option (List Str)) : List (Nat × Str) :=
  match res with
  | some pages => pageChunks pages
  | none => []

/-- DocumentProcessor._process_pdf, document_processor.py lines 115-145.
direct is the list of per-page texts of the direct extraction phase (none
when that phase raised, which the code catches before falling through), ocr
the per-page OCR texts (none when rendering or OCR raised, which the outer
handler turns into an empty result).  The direct chunks are returned when
non-empty; otherwise the OCR chunks are. -/
def processPdf (direct : Option (List Str)) (ocr : Option (List Str)) :
    List (Nat × Str) :=
  if extractPhase direct ≠ [] then extractPhase direct
  else extractPhase ocr

/-! ## Embedding index (src/app/services/vector_store.py) -/

/-- The metadata record VectorStore.add_document builds for one chunk,
vector_store.py lines 94-103: the seven fixed entries, then the chunk's own
metadata spread in with dict update semantics (last writer wins on a key
collision). -/
def chunkRecord (dm : DocumentMetadata) (c : DocumentChunk) :
    List (String × Str) :=
  let base : List (String × Str) :=
    [("doc_id", dm.doc_id.toList),
     ("title", dm.title.toList),
     ("doc_type", dm.doc_type.value.toList),
     ("page_number", natToStr (c.page_number + 1)),
     ("chunk_index", natToStr c.chunk_index),
     ("source", dm.title.toList),
     ("upload_date", dm.upload_date)]
  c.metadata.foldl (fun m kv => dictSet m kv.1 kv.2) base

/-- The batched upsert content of VectorStore.add_document, vector_store.py
lines 89-125: one (content, metadata record) pair per chunk, in chunk order.
The store-level uuid4 ids and the batch boundaries at 100 records do not
change which records are stored. -/
def addDocumentRecords (doc : Document) : List (Str × List (String × Str)) :=
  doc.chunks.map (fun c => (c.content, chunkRecord doc.metadata c))

/-- The page number a search result reports, vector_store.py line 196:
int(metadata.get("page_number", 1)) - 1. -/
def searchPageNumber (m : List (String × Str)) : Nat :=
  (match dictGet m "page_number" with
   | some s => strToNat s
   | none => 1) - 1

/-- The chunk index a search result reports, vector_store.py line 197:
int(metadata.get("chunk_index", 0)). -/
def searchChunkIndex (m : List (String × Str)) : Nat :=
  match dictGet m "chunk_index" with
  | some s => strToNat s
  | none => 0

/-- The distance-to-similarity conversion of VectorStore.search,
vector_store.py line 202: 1.0 / (1.0 + distance) if distance > 0 else 1.0. -/
def searchScore (d : ℚ) : ℚ := if 0 < d then 1 / (1 + d) else 1

/-- One raw nearest-neighbour hit as the underlying engine returns it to
VectorStore.search: stored id, stored content, stored metadata record and
the raw cosine distance (a float, modelled as a rational). -/
structure RawHit where
  id : String
  content : Str
  metadata : List (String × Str)
  distance : ℚ
deriving DecidableEq

/-- Inverse of DocumentType.value with the default "text" of
vector_store.py line 183. -/
def parseDocType (s : Str) : DocumentType :=
  if s = "pdf".toList then .pdf
  else if s = "image".toList then .image
  else if s = "docx".toList then .docx
  else if s = "pptx".toList then .pptx
  else .text

/-- A dict lookup with a string default, as metadata.get(k, "") in
vector_store.py lines 181-194. -/
def dictGetD (m : List (String × Str)) (k : String) (dflt : Str) : Str :=
  match dictGet m k with
  | some v => v
  | none => dflt

/-- SearchResult of document.py lines 47-50. -/
structure SearchResult where
  chunk : DocumentChunk
  score : ℚ
  document : DocumentMetadata
deriving DecidableEq

/-- The per-hit SearchResult construction of VectorStore.search,
vector_store.py lines 173-208. -/
def mkSearchResult (h : RawHit) : SearchResult :=
  { chunk :=
      { chunk_id := h.id
        doc_id := String.mk (dictGetD h.metadata "doc_id" [])
        content := h.content
        page_number := searchPageNumber h.metadata
        chunk_index := searchChunkIndex h.metadata
        metadata := h.metadata }
    score := searchScore h.distance
    document :=
      { doc_id := String.mk (dictGetD h.metadata "doc_id" [])
        title := String.mk (dictGetD h.metadata "title" [])
        doc_type := parseDocType (dictGetD h.metadata "doc_type" "text".toList)
        upload_date := dictGetD h.metadata "upload_date" []
        custom_metadata :=
          h.metadata.filter (fun kv =>
            decide (kv.1 ∉ (["doc_id", "title", "doc_type", "upload_date"] :
              List String))) } }

/-- The result list VectorStore.search returns for the raw hits the engine
produced, in the engine's order. -/
def searchResults (hits : List RawHit) : List SearchResult :=
  hits.map mkSearchResult

/-! ## Result ranker/deduplicator (src/app.py lines 205-217) -/

/-- The answer field of a display record, src/app.py line 212: the content
stripped, newlines replaced by spaces, cut to 500 characters, with an
ellipsis appended when the ORIGINAL content is longer than 500 characters. -/
def answerSnippet (content : Str) : Str :=
  (replaceNl (pyStrip content)).take 500 ++
    (if 500 < content.length then ['.', '.', '.'] else [])

/-- The citation field, src/app.py line 213. -/
def citationStr (p c : Nat) : Str :=
  "Page ".toList ++ natToStr (p + 1) ++ ", Chunk ".toList ++ natToStr (c + 1)

/-- One display record of the docs_map, src/app.py lines 209-215. -/
structure DisplayDoc where
  id : String
  filename : String
  answer : Str
  citation : Str
  relevance : ℚ
deriving DecidableEq

/-- Building the display record for one search result, src/app.py lines
209-215 (the filename falls back to a default when the title is falsy). -/
def mkDisplayDoc (r : SearchResult) : DisplayDoc :=
  { id := r.document.doc_id
    filename := if r.document.title = "" then "Unnamed Document"
                else r.document.title
    answer := answerSnippet r.chunk.content
    citation := citationStr r.chunk.page_number r.chunk.chunk_index
    relevance := r.score }

/-- The docs_map loop of src/app.py lines 205-215: iterate the results in
engine order and keep only the first occurrence of each doc_id.  The Python
dict keyed by doc_id preserves insertion order, so its value list equals this
first-occurrence recursion with the set of already seen ids. -/
def docsMapList : List SearchResult → List String → List DisplayDoc
  | [], _ => []
  | r :: rs, seen =>
    if r.document.doc_id ∈ seen then docsMapList rs seen
    else mkDisplayDoc r :: docsMapList rs (r.document.doc_id :: seen)

/-- The comparison of the final explicit sort, src/app.py line 217:
sorted(..., key=relevance, reverse=True) is a stable descending sort. -/
def relevanceGe (a b : DisplayDoc) : Prop := b.relevance ≤ a.relevance

instance : DecidableRel relevanceGe := by
  intro a b
  unfold relevanceGe
  infer_instance

instance : IsTotal DisplayDoc relevanceGe := by
  constructor
  intro a b
  exact le_total b.relevance a.relevance

instance : IsTrans DisplayDoc relevanceGe := by
  constructor
  intro a b c hab hbc
  exact le_trans hbc hab

/-- documents_list of src/app.py line 217: the deduplicated records re-sorted
descending by relevance with a stable sort, like Python sorted with
reverse=True. -/
def documentsList (rs : List SearchResult) : List DisplayDoc :=
  List.insertionSort relevanceGe (docsMapList rs [])

/-! ## Theme extraction post-filter
(src/app/services/theme_extractor.py lines 126-153) -/

/-- Theme of theme_extractor.py lines 16-23. -/
structure Theme where
  name : Str
  description : Str
  keywords : List Str
  confidence : ℚ
  supporting_docs : List (String × ℚ) := []
deriving DecidableEq

/-- The data-infrastructure vocabulary allow-list, theme_extractor.py lines
133-137. -/
def dataKeywords : List Str :=
  ["data".toList, "database".toList, "sql".toList, "nosql".toList,
   "analytics".toList, "pipeline".toList, "storage".toList, "etl".toList,
   "warehouse".toList, "stream".toList, "kafka".toList, "spark".toList,
   "hadoop".toList, "postgres".toList, "mysql".toList, "mongodb".toList,
   "redis".toList, "elasticsearch".toList, "cassandra".toList,
   "airflow".toList]

/-- The AI/ML vocabulary deny-list, theme_extractor.py lines 138-141. -/
def aiTerms : List Str :=
  ["machine learning".toList, "deep learning".toList,
   "artificial intelligence".toList, "ai".toList, "nlp".toList,
   "model".toList, "training".toList, "inference".toList,
   "computer vision".toList]

/-- The per-theme name test of the final loop, theme_extractor.py lines
144-151: skip when an AI term occurs in the lowercased name, keep when a
data keyword occurs in it. -/
def themeNameOk (name : Str) : Bool :=
  let n := pyLower name
  (!(aiTerms.any (fun t => strContains n t))) &&
    dataKeywords.any (fun k => strContains n k)

/-- The post-LLM pipeline of extract_themes, theme_extractor.py lines
126-153: filter by the confidence threshold, truncate to max_themes, then
the loop with continue, which keeps exactly the themes passing the name
test. -/
def extractThemesPost (themes : List Theme) (minConf : ℚ) (maxThemes : Nat) :
    List Theme :=
  ((themes.filter (fun t => decide (minConf ≤ t.confidence))).take
    maxThemes).filter (fun t => themeNameOk t.name)

/-! ## Supporting lemmas -/

/-- Reading a decimal digit character back gives the digit. -/
theorem charToDigit_digitChar (d : Nat) (hd : d < 10) :
    charToDigit (Nat.digitChar d) = d := by
  interval_cases d <;> decide

/-- Folding the digit step over the little-endian digit list recovers the
number. -/
theorem foldr_natToStrCore (fuel : Nat) :
    ∀ n, n ≤ fuel →
      (natToStrCore n fuel).foldr (fun c a => a * 10 + charToDigit c) 0 = n := by
  induction fuel with
  | zero =>
    intro n hn
    interval_cases n
    rfl
  | succ fuel ih =>
    intro n hn
    by_cases h0 : n = 0
    · subst h0; rfl
    · have hdiv : n / 10 < n := Nat.div_lt_self (Nat.pos_of_ne_zero h0) (by norm_num)
      have : natToStrCore n (fuel + 1) =
          Nat.digitChar (n % 10) :: natToStrCore (n / 10) fuel := by
        simp [natToStrCore, h0]
      rw [this, List.foldr_cons, ih (n / 10) (by omega),
        charToDigit_digitChar (n % 10) (Nat.mod_lt n (by norm_num))]
      omega

/-- Parsing the decimal rendering of a natural number gives it back:
int(str(n)) == n. -/
theorem strToNat_natToStr (n : Nat) : strToNat (natToStr n) = n := by
  by_cases h0 : n = 0
  · subst h0; decide
  · have : natToStr n = (natToStrCore n n).reverse := by simp [natToStr, h0]
    rw [this, strToNat, List.foldl_reverse]
    exact foldr_natToStrCore n n le_rfl

/-- Replacing the value at one key commutes with searching for another key. -/
theorem find?_map_setKey (k key : String) (v : Str) (h : k ≠ key)
    (m : List (String × Str)) :
    List.find? (fun kv => kv.1 = key)
        (m.map (fun kv => if kv.1 = k then (k, v) else kv)) =
      List.find? (fun kv => kv.1 = key) m := by
  induction m with
  | nil => rfl
  | cons kv m ih =>
    by_cases hk : kv.1 = k
    · have h1 : (if kv.1 = k then (k, v) else kv) = (k, v) := by simp [hk]
      rw [List.map_cons, h1, List.find?_cons_of_neg, List.find?_cons_of_neg]
      · exact ih
      · simp [hk]
        exact h
      · simp
        exact h
    · have h1 : (if kv.1 = k then (k, v) else kv) = kv := by simp [hk]
      rw [List.map_cons, h1]
      by_cases hky : kv.1 = key
      · rw [List.find?_cons_of_pos, List.find?_cons_of_pos] <;> simp [hky]
      · rw [List.find?_cons_of_neg, List.find?_cons_of_neg]
        · exact ih
        · simp [hky]
        · simp [hky]

/-- Updating one key of a dict leaves the lookup of another key unchanged. -/
theorem dictGet_dictSet_ne (m : List (String × Str)) (k key : String)
    (v : Str) (h : k ≠ key) : dictGet (dictSet m k v) key = dictGet m key := by
  unfold dictSet
  by_cases hs : (m.find? (fun kv => kv.1 = k)).isSome
  · rw [if_pos hs]
    unfold dictGet
    rw [find?_map_setKey k key v h m]
  · rw [if_neg hs]
    unfold dictGet
    rw [List.find?_append]
    have hnone : List.find? (fun kv => decide (kv.1 = key)) [(k, v)] = none := by
      simp [h]
    simp [hnone]

/-- Folding dict updates whose keys all avoid a key leaves that lookup of the
dict unchanged. -/
theorem dictGet_foldl_dictSet (kvs : List (String × Str)) (key : String)
    (h : ∀ kv ∈ kvs, kv.1 ≠ key) :
    ∀ m, dictGet (kvs.foldl (fun m kv => dictSet m kv.1 kv.2) m) key =
      dictGet m key := by
  induction kvs with
  | nil => intro m; rfl
  | cons kv kvs ih =>
    intro m
    rw [List.foldl_cons, ih (fun x hx => h x (List.mem_cons_of_mem kv hx)),
      dictGet_dictSet_ne m kv.1 key kv.2 (h kv (List.mem_cons_self kv kvs))]

/-- Stripping never lengthens a string. -/
theorem pyStrip_length_le (s : Str) : (pyStrip s).length ≤ s.length := by
  unfold pyStrip
  calc ((s.dropWhile pyIsSpace).reverse.dropWhile pyIsSpace).reverse.length
      = ((s.dropWhile pyIsSpace).reverse.dropWhile pyIsSpace).length := by
        rw [List.length_reverse]
    _ ≤ (s.dropWhile pyIsSpace).reverse.length :=
        (List.dropWhile_sublist _).length_le
    _ = (s.dropWhile pyIsSpace).length := by rw [List.length_reverse]
    _ ≤ s.length := (List.dropWhile_sublist _).length_le

/-- Replacing newlines by spaces keeps the length. -/
theorem replaceNl_length (s : Str) : (replaceNl s).length = s.length :=
  List.length_map _ _

/-- A nonempty list of naturals contains its foldr maximum. -/
theorem foldr_max_mem (l : List Nat) (h : l ≠ []) : l.foldr max 0 ∈ l := by
  induction l with
  | nil => exact absurd rfl h
  | cons a l ih =>
    by_cases hl : l = []
    · subst hl; simp
    · rcases Nat.le_total (l.foldr max 0) a with hle | hle
      · simp [Nat.max_eq_left hle]
      · rw [List.foldr_cons, Nat.max_eq_right hle]
        exact List.mem_cons_of_mem a (ih hl)

/-- Every member of a list of naturals is at most its foldr maximum. -/
theorem le_foldr_max (l : List Nat) (x : Nat) (hx : x ∈ l) :
    x ≤ l.foldr max 0 := by
  induction l with
  | nil => cases hx
  | cons a l ih =>
    rcases List.mem_cons.mp hx with h | h
    · subst h; exact le_max_left _ _
    · exact le_trans (ih h) (le_max_right _ _)

/-! ## Claim theorems: C9, C7, C4, C6, C3, C8 -/

/-- C9: when raw_text is set and non-empty, get_full_text returns it and the
chunk list is ignored entirely; the sorted-and-joined chunk view is used
exactly when raw_text is unset or empty. -/
theorem getFullText_raw_precedence (d : Document) :
    (∀ t, d.raw_text = some t → t ≠ [] →
      getFullText d = t ∧ ∀ cs, getFullText { d with chunks := cs } = t)
    ∧ (d.raw_text = none → getFullText d = sortedJoinedText d.chunks)
    ∧ (d.raw_text = some [] → getFullText d = sortedJoinedText d.chunks) := by
  refine ⟨?_, ?_, ?_⟩
  · intro t ht hne
    constructor
    · simp [getFullText, ht, hne]
    · intro cs
      simp [getFullText, ht, hne]
  · intro h
    simp [getFullText, h]
  · intro h
    simp [getFullText, h, sortedJoinedText]

/-- Content refuting the claimed snippet description: one letter followed by
502 trailing blanks. -/
def c7content : Str := 'a' :: List.replicate 502 ' '

/-- The snippet as the claim words it: the content with newlines collapsed
to spaces, truncated to at most 500 characters, with an ellipsis appended
exactly when the truncation shortened it. -/
def claimedSnippet (content : Str) : Str :=
  (replaceNl content).take 500 ++
    (if 500 < (replaceNl content).length then ['.', '.', '.'] else [])

set_option maxRecDepth 8000 in
/-- C7 counterexample: the code strips the content first and keys the
ellipsis on the original length, so on a short word padded with 502 blanks
it produces a four-character snippet ending in an ellipsis although nothing
was truncated, while the claimed description keeps 500 characters. -/
theorem answerSnippet_counterexample :
    answerSnippet c7content = ['a', '.', '.', '.']
    ∧ claimedSnippet c7content ≠ answerSnippet c7content := by
  constructor
  · decide
  · decide

/-- C7 amended: the snippet is the content stripped of surrounding
whitespace with newlines replaced by spaces, cut to its first 500
characters, and the ellipsis is appended exactly when the ORIGINAL content
is longer than 500 characters (so no cutting happens for content of at most
500 characters). -/
theorem answerSnippet_amended (content : Str) :
    (content.length ≤ 500 → answerSnippet content = replaceNl (pyStrip content))
    ∧ (500 < content.length →
      answerSnippet content =
        (replaceNl (pyStrip content)).take 500 ++ ['.', '.', '.']) := by
  constructor
  · intro h
    unfold answerSnippet
    rw [if_neg (by omega), List.append_nil, List.take_of_length_le]
    rw [replaceNl_length]
    exact le_trans (pyStrip_length_le content) h
  · intro h
    unfold answerSnippet
    rw [if_pos h]

/-- C4: the OCR fallback of _process_pdf is all-or-nothing.  When the direct
extraction phase yields at least one non-empty page, exactly those chunks
are returned and the OCR outcome is never consulted; when it yields none,
the result is exactly the OCR phase's chunks. -/
theorem processPdf_fallback (direct ocr : Option (List Str)) :
    (extractPhase direct ≠ [] →
      processPdf direct ocr = extractPhase direct
      ∧ ∀ ocr2, processPdf direct ocr2 = processPdf direct ocr)
    ∧ (extractPhase direct = [] → processPdf direct ocr = extractPhase ocr)
    ∧ (∀ pages, direct = some pages → extractPhase direct = pageChunks pages) := by
  refine ⟨?_, ?_, ?_⟩
  · intro h
    constructor
    · simp [processPdf, h]
    · intro ocr2
      simp [processPdf, h]
  · intro h
    simp [processPdf, h]
  · intro pages hp
    simp [extractPhase, hp]

/-- C6: process_document returns the None result exactly in the four failure
cases (missing file, undetermined MIME type, unsupported MIME type, empty
extraction), each of them indistinguishable from the others in the returned
value; the embedding is a total function, reflecting that every raised error
is caught by the handler of lines 111-113 and converted to this value. -/
theorem processDocument_failure_modes (e : Bool) (mt ext : Option String)
    (stem : String) (fname : Str) (segs : List (Nat × Str)) :
    processDocument e mt ext stem fname segs = none ↔
      (e = false ∨ mt = none ∨
        (∃ m, mt = some m ∧ supportedMimeTypes.contains m = false) ∨
        segs = []) := by
  unfold processDocument
  cases e with
  | false => simp
  | true =>
    rw [if_neg (by decide)]
    cases mt with
    | none => simp
    | some m =>
      dsimp only
      by_cases hc : supportedMimeTypes.contains m = false
      · rw [if_pos hc]
        constructor
        · intro _
          exact Or.inr (Or.inr (Or.inl ⟨m, rfl, hc⟩))
        · intro _
          rfl
      · rw [if_neg hc]
        by_cases hseg : segs = []
        · rw [if_pos hseg]
          constructor
          · intro _
            exact Or.inr (Or.inr (Or.inr hseg))
          · intro _
            rfl
        · rw [if_neg hseg]
          constructor
          · intro hsome
            exact absurd hsome (by simp)
          · rintro (h | h | ⟨m2, hm2, hcm2⟩ | h)
            · exact absurd h (by simp)
            · exact absurd h (by simp)
            · rw [Option.some.injEq] at hm2
              subst hm2
              exact absurd hcm2 hc
            · exact absurd h hseg

/-- C3: every SearchResult built by the search conversion loop carries the
score 1 / (1 + d) of its raw distance d when d > 0 and the score 1
otherwise, and this score always lies between 0 and 1. -/
theorem searchResults_score_bounds (hits : List RawHit) (r : SearchResult)
    (hr : r ∈ searchResults hits) :
    ∃ h ∈ hits, r.score = searchScore h.distance
      ∧ (0 < h.distance → r.score = 1 / (1 + h.distance))
      ∧ (h.distance ≤ 0 → r.score = 1)
      ∧ 0 ≤ r.score ∧ r.score ≤ 1 := by
  unfold searchResults at hr
  rcases List.mem_map.mp hr with ⟨h, hmem, rfl⟩
  have hscore : (mkSearchResult h).score = searchScore h.distance := rfl
  refine ⟨h, hmem, hscore, ?_, ?_, ?_, ?_⟩
  · intro hd
    rw [hscore]
    unfold searchScore
    rw [if_pos hd]
  · intro hd
    rw [hscore]
    unfold searchScore
    rw [if_neg (by linarith)]
  · rw [hscore]
    unfold searchScore
    by_cases hd : 0 < h.distance
    · rw [if_pos hd]
      positivity
    · rw [if_neg hd]
      norm_num
  · rw [hscore]
    unfold searchScore
    by_cases hd : 0 < h.distance
    · rw [if_pos hd, div_le_one (by linarith)]
      linarith
    · rw [if_neg hd]

/-- Concrete raw hit at distance 1 for the C3 witness. -/
def c3hit : RawHit :=
  { id := "h1", content := "hello".toList, metadata := [], distance := 1 }

/-- Witness for C3 at a concrete hit of distance 1. -/
theorem searchResults_score_bounds_witness :
    ∃ h ∈ [c3hit], (mkSearchResult c3hit).score = searchScore h.distance
      ∧ (0 < h.distance → (mkSearchResult c3hit).score = 1 / (1 + h.distance))
      ∧ (h.distance ≤ 0 → (mkSearchResult c3hit).score = 1)
      ∧ 0 ≤ (mkSearchResult c3hit).score ∧ (mkSearchResult c3hit).score ≤ 1 :=
  searchResults_score_bounds [c3hit] (mkSearchResult c3hit)
    (by simp [searchResults])

/-- C8: a theme survives the final loop of extract_themes exactly when it
survived the confidence cut and its lowercased name avoids every AI/ML term
while containing at least one data-infrastructure keyword. -/
theorem extractThemes_name_filter (themes : List Theme) (minConf : ℚ)
    (maxThemes : Nat) (t : Theme) :
    t ∈ extractThemesPost themes minConf maxThemes ↔
      (t ∈ (themes.filter
              (fun t => decide (minConf ≤ t.confidence))).take maxThemes
        ∧ (∃ kw ∈ dataKeywords, strContains (pyLower t.name) kw = true)
        ∧ (∀ term ∈ aiTerms, strContains (pyLower t.name) term = false)) := by
  unfold extractThemesPost
  rw [List.mem_filter]
  unfold themeNameOk
  simp only [Bool.and_eq_true, Bool.not_eq_true', List.any_eq_true,
    List.any_eq_false, Bool.not_eq_true, and_assoc]
  constructor
  · rintro ⟨h1, h2, h3⟩
    exact ⟨h1, h3, h2⟩
  · rintro ⟨h1, h2, h3⟩
    exact ⟨h1, h3, h2⟩

/-! ## Claim C1: assembled documents count chunks, pages and words -/

/-- Counting facts about an assembled document: one chunk per extracted
segment, page_count is one more than the greatest chunk page number, and
word_count sums the whitespace-token counts of the chunk contents. -/
theorem assembleDocument_counts (stem : String) (fname : Str)
    (ext : Option String) (segs : List (Nat × Str)) (hs : segs ≠ []) :
    (assembleDocument stem fname ext segs).chunks ≠ []
    ∧ (assembleDocument stem fname ext segs).chunks.length = segs.length
    ∧ (∀ c ∈ (assembleDocument stem fname ext segs).chunks,
        c.page_number + 1 ≤ (assembleDocument stem fname ext segs).metadata.page_count)
    ∧ (∃ c ∈ (assembleDocument stem fname ext segs).chunks,
        c.page_number + 1 = (assembleDocument stem fname ext segs).metadata.page_count)
    ∧ (assembleDocument stem fname ext segs).metadata.word_count =
        ((assembleDocument stem fname ext segs).chunks.map
          (fun c => countWords c.content)).sum := by
  have hchunks : (assembleDocument stem fname ext segs).chunks =
      segs.enum.map (fun p => mkChunk stem fname p.1 p.2) := rfl
  have hlen : (assembleDocument stem fname ext segs).chunks.length = segs.length := by
    rw [hchunks, List.length_map, List.enum_length]
  have hne : (assembleDocument stem fname ext segs).chunks ≠ [] := by
    intro hnil
    apply hs
    have h2 := hlen
    rw [hnil] at h2
    exact List.length_eq_zero.mp h2.symm
  have hpc : (assembleDocument stem fname ext segs).metadata.page_count =
      ((assembleDocument stem fname ext segs).chunks.map
        (fun c => c.page_number)).foldr max 0 + 1 := rfl
  refine ⟨hne, hlen, ?_, ?_, rfl⟩
  · intro c hc
    rw [hpc]
    have : c.page_number ∈ ((assembleDocument stem fname ext segs).chunks.map
        (fun c => c.page_number)) := List.mem_map_of_mem _ hc
    have := le_foldr_max _ _ this
    omega
  · have hmapne : ((assembleDocument stem fname ext segs).chunks.map
        (fun c => c.page_number)) ≠ [] := by
      intro hmnil
      exact hne (List.map_eq_nil_iff.mp hmnil)
    have hmem := foldr_max_mem _ hmapne
    rcases List.mem_map.mp hmem with ⟨c, hc, hcp⟩
    exact ⟨c, hc, by rw [hpc, hcp]⟩

/-- C1: a document successfully assembled by process_document from N
extracted segments has exactly N chunks, page_count equal to the greatest
chunk page number plus one, and word_count equal to the summed
whitespace-token counts of the chunk contents.  (Such a document always has
at least one chunk, so the zero-chunk case of the claim is vacuous.) -/
theorem processDocument_assembled_counts (e : Bool) (mt ext : Option String)
    (stem : String) (fname : Str) (segs : List (Nat × Str)) (doc : Document)
    (h : processDocument e mt ext stem fname segs = some doc) :
    doc.chunks ≠ []
    ∧ doc.chunks.length = segs.length
    ∧ (∀ c ∈ doc.chunks, c.page_number + 1 ≤ doc.metadata.page_count)
    ∧ (∃ c ∈ doc.chunks, c.page_number + 1 = doc.metadata.page_count)
    ∧ doc.metadata.word_count =
        (doc.chunks.map (fun c => countWords c.content)).sum := by
  unfold processDocument at h
  by_cases he : e = false
  · rw [if_pos he] at h
    exact absurd h (by simp)
  · rw [if_neg he] at h
    cases mt with
    | none => exact absurd h (by simp)
    | some m =>
      dsimp only at h
      by_cases hc : supportedMimeTypes.contains m = false
      · rw [if_pos hc] at h
        exact absurd h (by simp)
      · rw [if_neg hc] at h
        by_cases hseg : segs = []
        · rw [if_pos hseg] at h
          exact absurd h (by simp)
        · rw [if_neg hseg] at h
          have hdoc : assembleDocument stem fname ext segs = doc :=
            Option.some.inj h
          rw [← hdoc]
          exact assembleDocument_counts stem fname ext segs hseg

/-- Concrete extraction result for the C1 witness. -/
def c1segs : List (Nat × Str) := [(0, "hello world".toList)]

/-- Concrete assembled document for the C1 witness. -/
def c1doc : Document := assembleDocument "notes" "notes.txt".toList (some "txt") c1segs

/-- Witness for C1: a one-segment plain text file processed end to end. -/
theorem processDocument_assembled_counts_witness :
    c1doc.chunks ≠ []
    ∧ c1doc.chunks.length = c1segs.length
    ∧ (∀ c ∈ c1doc.chunks, c.page_number + 1 ≤ c1doc.metadata.page_count)
    ∧ (∃ c ∈ c1doc.chunks, c.page_number + 1 = c1doc.metadata.page_count)
    ∧ c1doc.metadata.word_count =
        (c1doc.chunks.map (fun c => countWords c.content)).sum :=
  processDocument_assembled_counts true (some "text/plain") (some "txt")
    "notes" "notes.txt".toList c1segs c1doc rfl

/-! ## Claim C2: sort-based determinism of get_full_text -/

/-- Strict lexicographic order on the chunk sort keys. -/
def chunkKeyLt (a b : DocumentChunk) : Prop :=
  a.page_number < b.page_number ∨
    (a.page_number = b.page_number ∧ a.chunk_index < b.chunk_index)

/-- Reflexive closure of the strict key order; antisymmetric, so a list
sorted by it is determined by its multiset of elements. -/
def chunkOrd (a b : DocumentChunk) : Prop := chunkKeyLt a b ∨ a = b

instance : IsAntisymm DocumentChunk chunkOrd := by
  constructor
  intro a b hab hba
  rcases hab with hab | rfl
  · rcases hba with hba | heq
    · unfold chunkKeyLt at hab hba
      omega
    · exact heq.symm
  · rfl

/-- When the chunk keys are pairwise distinct, sorting by the key comparison
gives the same list for any two permutation-equal inputs. -/
theorem sortChunks_eq_of_perm (l₁ l₂ : List DocumentChunk)
    (hperm : l₁.Perm l₂) (hkeys : (l₁.map chunkKey).Nodup) :
    sortChunks l₁ = sortChunks l₂ := by
  have hperm2 : (sortChunks l₁).Perm (sortChunks l₂) :=
    ((List.perm_insertionSort chunkLeP l₁).trans hperm).trans
      (List.perm_insertionSort chunkLeP l₂).symm
  have hpair₁ : List.Pairwise
      (fun a b : DocumentChunk => chunkKey a ≠ chunkKey b) l₁ :=
    List.pairwise_map.mp hkeys
  have hpair₂ : List.Pairwise
      (fun a b : DocumentChunk => chunkKey a ≠ chunkKey b) l₂ :=
    (hperm.pairwise_iff (fun hxy => Ne.symm hxy)).mp hpair₁
  have hpairS₁ : List.Pairwise
      (fun a b : DocumentChunk => chunkKey a ≠ chunkKey b) (sortChunks l₁) :=
    ((List.perm_insertionSort chunkLeP l₁).pairwise_iff
      (fun hxy => Ne.symm hxy)).mpr hpair₁
  have hpairS₂ : List.Pairwise
      (fun a b : DocumentChunk => chunkKey a ≠ chunkKey b) (sortChunks l₂) :=
    ((List.perm_insertionSort chunkLeP l₂).pairwise_iff
      (fun hxy => Ne.symm hxy)).mpr hpair₂
  have hsorted₁ : List.Sorted chunkLeP (sortChunks l₁) :=
    List.sorted_insertionSort chunkLeP l₁
  have hsorted₂ : List.Sorted chunkLeP (sortChunks l₂) :=
    List.sorted_insertionSort chunkLeP l₂
  have himp : ∀ a b : DocumentChunk, chunkLeP a b →
      chunkKey a ≠ chunkKey b → chunkOrd a b := by
    intro a b hle hne
    left
    unfold chunkLeP at hle
    unfold chunkKey at hne
    rw [ne_eq, Prod.mk.injEq] at hne
    unfold chunkKeyLt
    omega
  have hord₁ : List.Sorted chunkOrd (sortChunks l₁) :=
    (hsorted₁.and hpairS₁).imp (fun h => himp _ _ h.1 h.2)
  have hord₂ : List.Sorted chunkOrd (sortChunks l₂) :=
    (hsorted₂.and hpairS₂).imp (fun h => himp _ _ h.1 h.2)
  exact List.eq_of_perm_of_sorted hperm2 hord₁ hord₂

/-- Metadata shared by the C2 counterexample documents. -/
def c2meta : DocumentMetadata :=
  { doc_id := "d", title := "d", doc_type := .text }

/-- First C2 chunk: key (0, 0), content a. -/
def c2chunkA : DocumentChunk :=
  { chunk_id := "d_chunk_0", doc_id := "d", content := ['a'],
    page_number := 0, chunk_index := 0 }

/-- Second C2 chunk: the same key (0, 0), content b. -/
def c2chunkB : DocumentChunk :=
  { chunk_id := "d_chunk_1", doc_id := "d", content := ['b'],
    page_number := 0, chunk_index := 0 }

/-- Document holding the two equal-key chunks in one order. -/
def c2doc₁ : Document := { metadata := c2meta, chunks := [c2chunkA, c2chunkB] }

/-- The same multiset of chunks added in the other order. -/
def c2doc₂ : Document := { metadata := c2meta, chunks := [c2chunkB, c2chunkA] }

/-- C2 counterexample: two documents whose chunk lists are permutations of
each other (so every (page_number, chunk_index) pair is unchanged) on which
get_full_text differs, because the stable sort keeps the insertion order of
chunks with equal keys. -/
theorem getFullText_perm_counterexample :
    c2doc₁.chunks.Perm c2doc₂.chunks
    ∧ c2doc₁.raw_text = c2doc₂.raw_text
    ∧ getFullText c2doc₁ ≠ getFullText c2doc₂ := by
  refine ⟨by decide, rfl, by decide⟩

/-- C2 amended: get_full_text is invariant under permuting the chunk list
provided the (page_number, chunk_index) keys are pairwise distinct (which
the assembler guarantees by assigning sequential chunk_index values); the
raw_text field, which takes precedence, must agree as well. -/
theorem getFullText_perm_invariant (d₁ d₂ : Document)
    (hperm : d₁.chunks.Perm d₂.chunks)
    (hkeys : (d₁.chunks.map chunkKey).Nodup)
    (hraw : d₁.raw_text = d₂.raw_text) :
    getFullText d₁ = getFullText d₂ := by
  have hsj : sortedJoinedText d₁.chunks = sortedJoinedText d₂.chunks := by
    unfold sortedJoinedText
    rw [sortChunks_eq_of_perm d₁.chunks d₂.chunks hperm hkeys]
  unfold getFullText
  rw [← hraw]
  cases d₁.raw_text with
  | none => exact hsj
  | some t =>
    by_cases ht : t ≠ []
    · simp [ht]
    · simp [ht, hsj]

/-- Third C2 chunk: key (1, 1), distinct from the key of the first. -/
def c2chunkC : DocumentChunk :=
  { chunk_id := "d_chunk_2", doc_id := "d", content := ['c'],
    page_number := 1, chunk_index := 1 }

/-- Distinct-key document in one insertion order. -/
def c2doc₃ : Document := { metadata := c2meta, chunks := [c2chunkA, c2chunkC] }

/-- The same distinct-key chunks in the other insertion order. -/
def c2doc₄ : Document := { metadata := c2meta, chunks := [c2chunkC, c2chunkA] }

/-- Witness for the amended C2 on a concrete distinct-key permutation. -/
theorem getFullText_perm_invariant_witness :
    getFullText c2doc₃ = getFullText c2doc₄ :=
  getFullText_perm_invariant c2doc₃ c2doc₄ (by decide) (by decide) rfl

/-! ## Claim C5: the ranker deduplicates by first occurrence and re-sorts -/

/-- Every record the docs_map loop emits has an id outside the seen set. -/
theorem docsMapList_id_not_seen :
    ∀ (rs : List SearchResult) (seen : List String) (d : DisplayDoc),
      d ∈ docsMapList rs seen → d.id ∉ seen := by
  intro rs
  induction rs with
  | nil =>
    intro seen d hd
    cases hd
  | cons r rs ih =>
    intro seen d hd
    unfold docsMapList at hd
    by_cases hmem : r.document.doc_id ∈ seen
    · rw [if_pos hmem] at hd
      exact ih seen d hd
    · rw [if_neg hmem] at hd
      rcases List.mem_cons.mp hd with rfl | hd
      · exact hmem
      · have hnot := ih _ d hd
        intro hc
        exact hnot (List.mem_cons_of_mem _ hc)

/-- The ids of the docs_map records are pairwise distinct. -/
theorem docsMapList_ids_nodup :
    ∀ (rs : List SearchResult) (seen : List String),
      ((docsMapList rs seen).map (fun d => d.id)).Nodup := by
  intro rs
  induction rs with
  | nil =>
    intro seen
    simp [docsMapList]
  | cons r rs ih =>
    intro seen
    unfold docsMapList
    by_cases hmem : r.document.doc_id ∈ seen
    · rw [if_pos hmem]
      exact ih seen
    · rw [if_neg hmem]
      rw [List.map_cons, List.nodup_cons]
      constructor
      · intro hc
        rcases List.mem_map.mp hc with ⟨d, hd, hid⟩
        have hnot := docsMapList_id_not_seen rs _ d hd
        exact hnot (by rw [hid]; exact List.mem_cons_self _ _)
      · exact ih _

/-- Every docs_map record is the display of the FIRST search result carrying
its doc_id. -/
theorem docsMapList_first_occurrence :
    ∀ (rs : List SearchResult) (seen : List String) (d : DisplayDoc),
      d ∈ docsMapList rs seen →
      ∃ r, rs.find? (fun x => decide (x.document.doc_id = d.id)) = some r
        ∧ d = mkDisplayDoc r := by
  intro rs
  induction rs with
  | nil =>
    intro seen d hd
    cases hd
  | cons r rs ih =>
    intro seen d hd
    unfold docsMapList at hd
    by_cases hmem : r.document.doc_id ∈ seen
    · rw [if_pos hmem] at hd
      have hne : r.document.doc_id ≠ d.id := by
        intro hc
        exact docsMapList_id_not_seen rs seen d hd (hc ▸ hmem)
      rcases ih seen d hd with ⟨r2, hfind, hdisp⟩
      refine ⟨r2, ?_, hdisp⟩
      rw [List.find?_cons_of_neg]
      · exact hfind
      · simp [hne]
    · rw [if_neg hmem] at hd
      rcases List.mem_cons.mp hd with rfl | hd
      · refine ⟨r, ?_, rfl⟩
        rw [List.find?_cons_of_pos]
        simp [mkDisplayDoc]
      · have hne : r.document.doc_id ≠ d.id := by
          intro hc
          have hnot := docsMapList_id_not_seen rs _ d hd
          exact hnot (by rw [← hc]; exact List.mem_cons_self _ _)
        rcases ih _ d hd with ⟨r2, hfind, hdisp⟩
        refine ⟨r2, ?_, hdisp⟩
        rw [List.find?_cons_of_neg]
        · exact hfind
        · simp [hne]

/-- Every search result whose doc_id is not yet seen is represented by some
docs_map record. -/
theorem docsMapList_covers :
    ∀ (rs : List SearchResult) (seen : List String) (x : SearchResult),
      x ∈ rs → x.document.doc_id ∉ seen →
      ∃ d ∈ docsMapList rs seen, d.id = x.document.doc_id := by
  intro rs
  induction rs with
  | nil =>
    intro seen x hx
    cases hx
  | cons r rs ih =>
    intro seen x hx hns
    unfold docsMapList
    by_cases hmem : r.document.doc_id ∈ seen
    · rw [if_pos hmem]
      rcases List.mem_cons.mp hx with rfl | hx
      · exact absurd hmem hns
      · exact ih seen x hx hns
    · rw [if_neg hmem]
      by_cases heq : x.document.doc_id = r.document.doc_id
      · exact ⟨mkDisplayDoc r, List.mem_cons_self _ _, heq.symm⟩
      · rcases List.mem_cons.mp hx with rfl | hx
        · exact absurd rfl heq
        · rcases ih (r.document.doc_id :: seen) x hx (by
            intro hc
            rcases List.mem_cons.mp hc with h | h
            · exact heq h
            · exact hns h) with ⟨d, hd, hid⟩
          exact ⟨d, List.mem_cons_of_mem _ hd, hid⟩

/-- Metadata of scenario document A. -/
def c5metaA : DocumentMetadata :=
  { doc_id := "A", title := "A", doc_type := .text }

/-- Metadata of scenario document B. -/
def c5metaB : DocumentMetadata :=
  { doc_id := "B", title := "B", doc_type := .text }

/-- The best chunk of document A. -/
def c5chunkA1 : DocumentChunk :=
  { chunk_id := "a1", doc_id := "A", content := "alpha high".toList,
    page_number := 0, chunk_index := 0 }

/-- The weaker chunk of document A. -/
def c5chunkA2 : DocumentChunk :=
  { chunk_id := "a2", doc_id := "A", content := "alpha low".toList,
    page_number := 1, chunk_index := 1 }

/-- The single chunk of document B. -/
def c5chunkB1 : DocumentChunk :=
  { chunk_id := "b1", doc_id := "B", content := "beta".toList,
    page_number := 0, chunk_index := 0 }

/-- Scenario result A at score 0.9. -/
def resA09 : SearchResult :=
  { chunk := c5chunkA1, score := mkRat 9 10, document := c5metaA }

/-- Scenario result B at score 0.7. -/
def resB07 : SearchResult :=
  { chunk := c5chunkB1, score := mkRat 7 10, document := c5metaB }

/-- Scenario result A at score 0.5. -/
def resA05 : SearchResult :=
  { chunk := c5chunkA2, score := mkRat 5 10, document := c5metaA }

/-- C5: the ranker emits exactly one record per distinct doc_id, always the
first occurrence in engine order, and the final list is sorted descending by
relevance; on the input [A at 0.9, B at 0.7, A at 0.5] it returns
[A at 0.9, B at 0.7] in that order. -/
theorem documentsList_dedup_sorted (rs : List SearchResult) :
    ((documentsList rs).map (fun d => d.id)).Nodup
    ∧ (∀ d ∈ documentsList rs,
        ∃ r, rs.find? (fun x => decide (x.document.doc_id = d.id)) = some r
          ∧ d = mkDisplayDoc r)
    ∧ (∀ r ∈ rs, ∃ d ∈ documentsList rs, d.id = r.document.doc_id)
    ∧ List.Pairwise (fun a b : DisplayDoc => b.relevance ≤ a.relevance)
        (documentsList rs)
    ∧ documentsList [resA09, resB07, resA05] =
        [mkDisplayDoc resA09, mkDisplayDoc resB07] := by
  refine ⟨?_, ?_, ?_, ?_, ?_⟩
  · have hperm : ((documentsList rs).map (fun d => d.id)).Perm
        ((docsMapList rs []).map (fun d => d.id)) :=
      (List.perm_insertionSort relevanceGe (docsMapList rs [])).map _
    exact hperm.nodup_iff.mpr (docsMapList_ids_nodup rs [])
  · intro d hd
    exact docsMapList_first_occurrence rs [] d ((List.mem_insertionSort relevanceGe).mp hd)
  · intro r hr
    rcases docsMapList_covers rs [] r hr (by simp) with ⟨d, hd, hid⟩
    exact ⟨d, (List.mem_insertionSort relevanceGe).mpr hd, hid⟩
  · exact (List.sorted_insertionSort relevanceGe
      (docsMapList rs [])).imp (fun h => h)
  · decide

/-! ## Claim C10: page numbers round-trip through the index metadata -/

/-- C10 amended: for every chunk of a document stored by add_document whose
own metadata map carries no page_number key, the stored record holds the
decimal string of page_number + 1 under page_number, and the search-side
parse (int of the stored string, minus one) recovers the chunk's 0-based
page number.  (The spread of chunk.metadata into the record is last-writer-
wins, so a chunk metadata entry named page_number would override the stored
value; see the counterexample.) -/
theorem addDocument_page_roundtrip (doc : Document) (c : DocumentChunk)
    (hc : c ∈ doc.chunks)
    (h : ∀ kv ∈ c.metadata, kv.1 ≠ "page_number") :
    (c.content, chunkRecord doc.metadata c) ∈ addDocumentRecords doc
    ∧ dictGet (chunkRecord doc.metadata c) "page_number" =
        some (natToStr (c.page_number + 1))
    ∧ searchPageNumber (chunkRecord doc.metadata c) = c.page_number := by
  have hget : dictGet (chunkRecord doc.metadata c) "page_number" =
      some (natToStr (c.page_number + 1)) := by
    unfold chunkRecord
    rw [dictGet_foldl_dictSet c.metadata "page_number" h]
    unfold dictGet
    rw [List.find?_cons_of_neg, List.find?_cons_of_neg,
      List.find?_cons_of_neg, List.find?_cons_of_pos]
    · rfl
    · simp
    · simp
    · simp
    · simp
  refine ⟨?_, hget, ?_⟩
  · unfold addDocumentRecords
    exact List.mem_map_of_mem _ hc
  · unfold searchPageNumber
    rw [hget]
    dsimp only
    rw [strToNat_natToStr]
    omega

/-- Concrete document metadata for the C10 witness. -/
def c10meta : DocumentMetadata :=
  { doc_id := "report", title := "report", doc_type := .pdf }

/-- Concrete chunk on 0-based page 4 with collision-free metadata. -/
def c10chunk : DocumentChunk :=
  { chunk_id := "report_chunk_0", doc_id := "report", content := "hi".toList,
    page_number := 4, chunk_index := 0,
    metadata := [("source", "report.pdf".toList), ("page", ['5'])] }

/-- Concrete one-chunk document for the C10 witness. -/
def c10doc : Document := { metadata := c10meta, chunks := [c10chunk] }

/-- Witness for the amended C10 on the concrete page-4 chunk. -/
theorem addDocument_page_roundtrip_witness :
    (c10chunk.content, chunkRecord c10doc.metadata c10chunk) ∈
        addDocumentRecords c10doc
    ∧ dictGet (chunkRecord c10doc.metadata c10chunk) "page_number" =
        some (natToStr (c10chunk.page_number + 1))
    ∧ searchPageNumber (chunkRecord c10doc.metadata c10chunk) =
        c10chunk.page_number :=
  addDocument_page_roundtrip c10doc c10chunk (by decide) (by decide)

/-- Chunk whose own metadata already carries a page_number entry. -/
def c10chunkBad : DocumentChunk :=
  { chunk_id := "report_chunk_1", doc_id := "report", content := "yo".toList,
    page_number := 0, chunk_index := 1,
    metadata := [("page_number", ['9'])] }

/-- C10 counterexample: the chunk metadata spread is last-writer-wins, so a
chunk carrying its own page_number entry overrides the value add_document
computed, and the search-side parse no longer returns the chunk's page. -/
theorem addDocument_page_counterexample :
    dictGet (chunkRecord c10meta c10chunkBad) "page_number" = some ['9']
    ∧ some (natToStr (c10chunkBad.page_number + 1)) ≠ some ['9']
    ∧ searchPageNumber (chunkRecord c10meta c10chunkBad) ≠
        c10chunkBad.page_number := by
  refine ⟨by decide, by decide, by decide⟩

end DocChat
